import Mathlib

/-!
Verification of the dependency-graph / attack-surface analyser
(`graph_builder.py`, `metrics.py`, `attack_surface.py`).

The Python code is shallowly embedded:
* Python `str` values become `Str := List Char`; the string operations the
  code uses (`replace`, `split`, `endswith`) are reimplemented with Python's
  semantics (`replace` substitutes every non-overlapping occurrence, left to
  right; `split(sep)` never yields an empty list).
* Python `dict`s become insertion-ordered association lists: writing to an
  existing key updates it in place (last write wins), writing a new key
  appends.  `dict.get` is the first (unique) matching entry.
* `networkx.DiGraph` becomes an ordered node list plus an ordered edge list;
  `add_node` / `add_edge` deduplicate exactly as networkx does.
* The networkx algorithms the code delegates to are embedded with their
  documented semantics: `degree_centrality` (degree × 1/(n−1) for a digraph,
  where degree = in-degree + out-degree, and the constant map to 1 when
  n ≤ 1), `is_directed_acyclic_graph` (repeated removal of in-degree-0
  nodes, i.e. Kahn's algorithm), `simple_cycles` (every simple cycle listed
  exactly once, rotated so that its node of minimal position in the node
  list comes first), and `single_source_shortest_path_length` (breadth-first
  levels up to the cutoff, the source itself at distance 0).
* Python floats are modelled as rationals (`ℚ`).
* Python's stable `list.sort(key=k, reverse=True)` is modelled by
  `List.insertionSort` with the "key ≥ key" relation, which produces the
  same (unique) stable weakly-descending arrangement.
-/

namespace CodeAnalyser

/-! ## Python strings -/

/-- Python strings, modelled as lists of characters. -/
abbrev Str := List Char

/-- Literal embedding of a Python string. -/
def pyLit (s : String) : Str := s.toList

/-- `strStartsWith s p` is true when `s` starts with `p`. -/
def strStartsWith : Str → Str → Bool
  | _, [] => true
  | [], _ :: _ => false
  | c :: s, p :: ps => c == p && strStartsWith s ps

/-- Python `s.endswith(suffix)`. -/
def strEndsWith (s suffix : Str) : Bool :=
  strStartsWith s.reverse suffix.reverse

/-- Core of Python `s.replace(old, new)` for a non-empty `old = o :: os`:
replace every non-overlapping occurrence, scanning left to right.  The
recursion is fuelled (structurally) so that it evaluates inside the kernel;
the string shrinks by at least one character per step, so any fuel of at
least `s.length` is enough and the `0` case is never reached. -/
def replaceAllAux (o : Char) (os new : Str) : Nat → Str → Str
  | 0, s => s
  | fuel + 1, s =>
    match s with
    | [] => []
    | c :: rest =>
      if strStartsWith (c :: rest) (o :: os) then
        new ++ replaceAllAux o os new fuel (rest.drop os.length)
      else
        c :: replaceAllAux o os new fuel rest

/-- Python `s.replace(old, new)` (the code only ever uses non-empty `old`). -/
def replaceStr (s old new : Str) : Str :=
  match old with
  | [] => s
  | o :: os => replaceAllAux o os new s.length s

/-- Python `s.split(sep)` for a single-character separator: the result is
never the empty list (splitting the empty string gives `[""]`). -/
def splitOnChar (sep : Char) : Str → List Str
  | [] => [[]]
  | c :: rest =>
    match splitOnChar sep rest with
    | [] => [[c]]
    | s :: ss => if c == sep then [] :: s :: ss else (c :: s) :: ss

/-- Python `s.split('.')[0]`. -/
def firstSegment (s : Str) : Str := (splitOnChar '.' s).headD []

/-- Python `s.split('/')[-1]`. -/
def lastSegment (s : Str) : Str := (splitOnChar '/' s).getLastD []

/-! ## Python dicts as insertion-ordered association lists -/

/-- Python `d[k] = v`: update the existing entry in place, else append. -/
def dictInsert {α β : Type} [DecidableEq α] (d : List (α × β)) (k : α) (v : β) :
    List (α × β) :=
  match d with
  | [] => [(k, v)]
  | (k', v') :: rest => if k = k' then (k, v) :: rest else (k', v') :: dictInsert rest k v

/-- Python `d.get(k)` / `k in d`: the first (unique) matching entry. -/
def dictGet? {α β : Type} [DecidableEq α] (d : List (α × β)) (k : α) : Option β :=
  match d with
  | [] => none
  | (k', v') :: rest => if k = k' then some v' else dictGet? rest k

/-! ## networkx `DiGraph` -/

/-- A networkx directed graph: insertion-ordered nodes and edges. -/
structure DiGraph (α : Type) where
  nodes : List α
  edges : List (α × α)
deriving DecidableEq, Repr

/-- networkx `G.add_node(v)`. -/
def addNode {α : Type} [DecidableEq α] (g : DiGraph α) (v : α) : DiGraph α :=
  if v ∈ g.nodes then g else ⟨g.nodes ++ [v], g.edges⟩

/-- networkx `G.add_edge(u, v)`: missing endpoints are added as nodes,
duplicate edges are ignored. -/
def addEdge {α : Type} [DecidableEq α] (g : DiGraph α) (u v : α) : DiGraph α :=
  if (u, v) ∈ (addNode (addNode g u) v).edges then addNode (addNode g u) v
  else ⟨(addNode (addNode g u) v).nodes, (addNode (addNode g u) v).edges ++ [(u, v)]⟩

/-- networkx `G.number_of_nodes()`. -/
def numberOfNodes {α : Type} (g : DiGraph α) : Nat := g.nodes.length

/-- networkx `G.number_of_edges()`. -/
def numberOfEdges {α : Type} (g : DiGraph α) : Nat := g.edges.length

/-- The out-neighbour list of `v` (networkx `G.successors(v)`). -/
def successors {α : Type} [DecidableEq α] (g : DiGraph α) (v : α) : List α :=
  (g.edges.filter (fun e => decide (e.1 = v))).map (fun e => e.2)

/-- networkx `G.in_degree(v)` for a `DiGraph`. -/
def inDegree {α : Type} [DecidableEq α] (g : DiGraph α) (v : α) : Nat :=
  (g.edges.filter (fun e => decide (e.2 = v))).length

/-- networkx `G.out_degree(v)` for a `DiGraph`. -/
def outDegree {α : Type} [DecidableEq α] (g : DiGraph α) (v : α) : Nat :=
  (g.edges.filter (fun e => decide (e.1 = v))).length

/-! ## `graph_builder.py` — `GraphBuilder.build_graph` -/

/-- The input `dependencies: Dict[str, Set[str]]`, as an insertion-ordered
list of `(module, imports)` pairs (Python set iteration order is modelled by
the list order of the imports). -/
abbrev Deps := List (Str × List Str)

/-- One iteration of the `module_map` construction loop in
`GraphBuilder.build_graph` (graph_builder.py lines 33–49): register the
candidate names of one module. -/
def registerModule (mmap : List (Str × Str)) (module : Str) : List (Str × Str) :=
  let module_path := replaceStr module (pyLit ".py") []
  if strEndsWith module_path (pyLit "/__init__") then
    let package_name := replaceStr module_path (pyLit "/__init__") []
    let mmap := dictInsert mmap package_name module
    if '/' ∈ package_name then
      dictInsert mmap (lastSegment package_name) module
    else
      mmap
  else
    let mmap := dictInsert mmap module_path module
    dictInsert mmap (lastSegment module_path) module

/-- The full `module_map` of `GraphBuilder.build_graph`. -/
def moduleMap (deps : Deps) : List (Str × Str) :=
  deps.foldl (fun m p => registerModule m p.1) []

/-- Python truthiness of `matched_module` (`None` and `''` are falsy). -/
def pyTruthy : Option Str → Bool
  | none => false
  | some s => !s.isEmpty

/-- The resolution chain of `GraphBuilder.build_graph` (lines 54–71): the
value of `matched_module` after the three tiers.  Each tier only overwrites
`matched_module` when the previous value is falsy *and* its own lookup hits
(`if first_segment in module_map: ...`), exactly as in the source. -/
def matchImport (mmap : List (Str × Str)) (dep : Str) : Option Str :=
  let m1 := dictGet? mmap dep
  let m2 :=
    if pyTruthy m1 then m1
    else
      match dictGet? mmap (firstSegment dep) with
      | some v => some v
      | none => m1
  if pyTruthy m2 then m2
  else
    match dictGet? mmap (replaceStr dep (pyLit ".") (pyLit "/")) with
    | some v => some v
    | none => m2

/-- The inner edge loop of `GraphBuilder.build_graph` (lines 52–74) for one
module: `if matched_module and matched_module != module: add_edge(...)`. -/
def addImportEdges (mmap : List (Str × Str)) (module : Str) :
    DiGraph Str → List Str → DiGraph Str
  | g, [] => g
  | g, dep :: rest =>
    addImportEdges mmap module
      (match matchImport mmap dep with
        | none => g
        | some m => if m ≠ [] ∧ m ≠ module then addEdge g module m else g)
      rest

/-- `GraphBuilder.build_graph` on a fresh builder: add every key as a node,
build `module_map`, then resolve every import of every module. -/
def build_graph (deps : Deps) : DiGraph Str :=
  let g0 : DiGraph Str := deps.foldl (fun g p => addNode g p.1) ⟨[], []⟩
  let mmap := moduleMap deps
  deps.foldl (fun g p => addImportEdges mmap p.1 g p.2) g0

/-! ## `graph_builder.py` — cycle detection and `get_graph_info` -/

/-- Kahn's algorithm: repeatedly delete all in-degree-0 nodes; the graph is
acyclic iff everything gets deleted.  This embeds
`networkx.is_directed_acyclic_graph` (a topological-sort based check). -/
def kahnLoop {α : Type} [DecidableEq α] : Nat → List α → List (α × α) → Bool
  | 0, nodes, _ => nodes.isEmpty
  | fuel + 1, nodes, edges =>
    let srcs := nodes.filter (fun v => edges.all (fun e => !decide (e.2 = v)))
    if srcs.isEmpty then nodes.isEmpty
    else
      kahnLoop fuel (nodes.filter (fun v => !decide (v ∈ srcs)))
        (edges.filter (fun e => !decide (e.1 ∈ srcs)))

/-- networkx `is_directed_acyclic_graph`. -/
def is_directed_acyclic_graph {α : Type} [DecidableEq α] (g : DiGraph α) : Bool :=
  kahnLoop g.nodes.length g.nodes g.edges

/-- Position of `v` in the node list (used to pick a canonical rotation for
each simple cycle, mirroring how `networkx.simple_cycles` emits every simple
cycle exactly once as a node sequence). -/
def rankIn {α : Type} [DecidableEq α] : List α → α → Nat
  | [], _ => 0
  | x :: xs, v => if x = v then 0 else rankIn xs v + 1

/-- Depth-first enumeration of the simple cycles through the start node `s`
whose other nodes all sit strictly after `s` in the node list.  `path` is
the current simple path in reverse (current node first). -/
def cyclesFromAux {α : Type} [DecidableEq α] (g : DiGraph α) (s : α) :
    Nat → List α → List (List α)
  | 0, _ => []
  | fuel + 1, path =>
    match path with
    | [] => []
    | current :: _ =>
      (successors g current).flatMap fun w =>
        (if w = s then [path.reverse] else []) ++
          (if rankIn g.nodes s < rankIn g.nodes w ∧ w ∉ path then
            cyclesFromAux g s fuel (w :: path)
          else [])

/-- networkx `simple_cycles`: every simple cycle of the digraph, each listed
once, as a list of nodes without repeating the start (a self-loop is `[v]`).
Cycles are emitted rotated so that their node of least node-list position
comes first. -/
def simple_cycles {α : Type} [DecidableEq α] (g : DiGraph α) : List (List α) :=
  g.nodes.flatMap fun s => cyclesFromAux g s (g.nodes.length + 1) [s]

/-- The body of `GraphBuilder.detect_cycles` inside its `try`/bare-`except`
(graph_builder.py lines 89–97): the size guard, then `list(simple_cycles)`,
with any exception from the enumeration (`enum = .error _`) turned into
`[]`. -/
def detectCyclesCore {α ε : Type} (numNodes maxNodes : Nat)
    (enum : Except ε (List (List α))) : List (List α) :=
  if numNodes > maxNodes then []
  else
    match enum with
    | .ok cycles => cycles
    | .error _ => []

/-- `GraphBuilder.detect_cycles(max_nodes)` (the enumeration itself is total
in the model, so it is passed as `.ok`). -/
def detect_cycles {α : Type} [DecidableEq α] (g : DiGraph α) (maxNodes : Nat) :
    List (List α) :=
  detectCyclesCore (numberOfNodes g) maxNodes (Except.ok (simple_cycles g) : Except Unit _)

/-- The dictionary returned by `GraphBuilder.get_graph_info`. -/
structure GraphInfo where
  nodes : Nat
  edges : Nat
  is_dag : Bool
  cycles : Int
deriving DecidableEq, Repr

/-- `GraphBuilder.get_graph_info` (graph_builder.py lines 99–120). -/
def get_graph_info {α : Type} [DecidableEq α] (g : DiGraph α) : GraphInfo :=
  let num_nodes := numberOfNodes g
  let is_dag := is_directed_acyclic_graph g
  let cycles_count : Int :=
    if num_nodes ≤ 100 ∧ is_dag = false then ((detect_cycles g 100).length : Int)
    else if is_dag then 0 else -1
  ⟨num_nodes, numberOfEdges g, is_dag, cycles_count⟩

/-! ## `metrics.py` — `MetricsCalculator.degree_centrality` -/

/-- networkx `degree_centrality`: for `n ≤ 1` every node gets 1; otherwise
each node gets `degree * (1/(n-1))` where for a `DiGraph` the degree is
in-degree + out-degree. -/
def degree_centrality {α : Type} [DecidableEq α] (g : DiGraph α) : List (α × ℚ) :=
  if g.nodes.length ≤ 1 then g.nodes.map (fun v => (v, 1))
  else
    g.nodes.map (fun v =>
      (v, ((inDegree g v + outDegree g v : ℕ) : ℚ) / ((g.nodes.length : ℚ) - 1)))

/-! ## `attack_surface.py` — `AttackSurfaceAnalyzer` -/

/-- One entry in an `entry_points` list, with the two fields the risk engine
reads (`entry['function']` and `entry.get('path', 'unknown')`; `analyze_file`
always stores a `'path'` key). -/
structure EntryPoint where
  function : Str
  path : Str
deriving DecidableEq, Repr

/-- The four risk bands returned by `_calculate_risk_level`.  In the source
they are the strings `"CRITIQUE"`, `"ÉLEVÉ"`, `"MOYEN"`, `"FAIBLE"`. -/
inductive RiskLevel where
  | CRITIQUE
  | ELEVE
  | MOYEN
  | FAIBLE
deriving DecidableEq, Repr

/-- Position of the band's French string in Python's (code-point
lexicographic) string order.  The four strings already differ at their first
character: `'C' = U+0043 < 'F' = U+0046 < 'M' = U+004D < 'É' = U+00C9`,
so `"CRITIQUE" < "FAIBLE" < "MOYEN" < "ÉLEVÉ"`. -/
def rlStringRank : RiskLevel → Nat
  | .CRITIQUE => 0
  | .FAIBLE => 1
  | .MOYEN => 2
  | .ELEVE => 3

/-- `AttackSurfaceAnalyzer._calculate_risk_level` (attack_surface.py lines
199–211), with the float literals `0.2`, `0.1`, `0.05` as rationals. -/
def riskLevelOf (distance : Nat) (centrality : ℚ) : RiskLevel :=
  let score := (1 / ((distance : ℚ) + 1)) * centrality
  if score > 1/5 then .CRITIQUE
  else if score > 1/10 then .ELEVE
  else if score > 1/20 then .MOYEN
  else .FAIBLE

/-- One element of `self.attack_surface`. -/
structure RiskRecord where
  entry_point : Str
  entry_function : Str
  entry_path : Str
  target_module : Str
  distance : Nat
  centrality : ℚ
  risk_level : RiskLevel
deriving DecidableEq, Repr

/-- Breadth-first levels: one call adds the nodes first reached at distance
`d`, then recurses on them.  `dist` is only ever extended, never rewritten. -/
def splLoop (g : DiGraph Str) : Nat → List Str → List (Str × Nat) → Nat →
    List (Str × Nat)
  | 0, _, dist, _ => dist
  | fuel + 1, frontier, dist, d =>
    let fresh :=
      ((frontier.flatMap (successors g)).filter
          (fun v => (dictGet? dist v).isNone)).foldl
        (fun acc v => if v ∈ acc then acc else acc ++ [v]) []
    if fresh = [] then dist
    else splLoop g fuel fresh (dist ++ fresh.map (fun v => (v, d))) (d + 1)

/-- networkx `single_source_shortest_path_length(G, src, cutoff)`: the
source itself is in the result at distance 0. -/
def single_source_shortest_path_length (g : DiGraph Str) (src : Str)
    (cutoff : Nat) : List (Str × Nat) :=
  splLoop g cutoff [src] [(src, 0)] 1

/-- `AttackSurfaceAnalyzer._calculate_distances_from_entry` (lines 185–197):
the `entry_module in self.graph` guard (with the `try`/`except` fallback)
yields the empty dict for a module absent from the graph. -/
def calcDistances (g : DiGraph Str) (entry_module : Str) : List (Str × Nat) :=
  if entry_module ∈ g.nodes then
    single_source_shortest_path_length g entry_module 5
  else []

/-- The record built at attack_surface.py lines 172–180. -/
def mkRiskRecord (entry_module : Str) (e : EntryPoint) (target : Str)
    (distance : Nat) (centrality : ℚ) : RiskRecord :=
  ⟨entry_module, e.function, e.path, target, distance, centrality,
    riskLevelOf distance centrality⟩

/-- The records one `(entry_module, entry)` pair appends inside
`calculate_attack_surface` (lines 158–180): walk the distance dict, skip
distances over 5, skip centrality ≤ 0.3 or distance > 3, keep the rest. -/
def recordsForEntry (g : DiGraph Str) (dc : List (Str × ℚ))
    (entry_module : Str) (e : EntryPoint) : List RiskRecord :=
  (calcDistances g entry_module).filterMap fun td =>
    if td.2 > 5 then none
    else
      let centrality := (dictGet? dc td.1).getD 0
      if centrality > 3/10 ∧ td.2 ≤ 3 then
        some (mkRiskRecord entry_module e td.1 td.2 centrality)
      else none

/-- The Python sort key of line 183, `(x['risk_level'], -x['distance'])`,
with the risk-level string abstracted to its position in string order. -/
def sortKey (r : RiskRecord) : Nat × Int :=
  (rlStringRank r.risk_level, -(r.distance : Int))

/-- Lexicographic `≤` on sort keys (Python tuple comparison). -/
@[reducible] def keyLE (x y : Nat × Int) : Prop :=
  x.1 < y.1 ∨ (x.1 = y.1 ∧ x.2 ≤ y.2)

/-- `a` may precede `b` in the descending sort: `sortKey b ≤ sortKey a`. -/
@[reducible] def recGe (a b : RiskRecord) : Prop := keyLE (sortKey b) (sortKey a)

instance : DecidableRel recGe := fun _ _ =>
  inferInstanceAs (Decidable (_ ∨ _))

instance : IsTotal RiskRecord recGe :=
  ⟨by
    intro a b
    rcases sortKey a with ⟨m, i⟩
    rcases sortKey b with ⟨n, j⟩
    simp only [recGe, keyLE]
    omega⟩

instance : IsTrans RiskRecord recGe :=
  ⟨by
    intro a b c hab hbc
    rcases sortKey a with ⟨m, i⟩
    rcases sortKey b with ⟨n, j⟩
    rcases sortKey c with ⟨p, k⟩
    simp only [recGe, keyLE] at *
    omega⟩

/-- Python's stable `list.sort(key=lambda x: (x['risk_level'],
-x['distance']), reverse=True)`: the unique stable weakly-descending
rearrangement, realised by insertion sort on `recGe`. -/
def sortRecords (l : List RiskRecord) : List RiskRecord :=
  l.insertionSort recGe

/-- The state of an `AttackSurfaceAnalyzer` (its `critical_paths` field is
never touched by the functions modelled here). -/
structure AnalyzerState where
  graph : DiGraph Str
  entry_points : List (Str × List EntryPoint)
  attack_surface : List RiskRecord
deriving DecidableEq, Repr

/-- `AttackSurfaceAnalyzer.calculate_attack_surface(metrics)` (lines
143–183), `dc` being `metrics.get('degree_centrality', {})`: an early
return on an empty `entry_points` dict; otherwise the new records are
*appended* to the persistent `self.attack_surface`, and the whole list is
re-sorted. -/
def calculate_attack_surface (st : AnalyzerState) (dc : List (Str × ℚ)) :
    AnalyzerState :=
  if st.entry_points = [] then st
  else
    let newRecords :=
      st.entry_points.flatMap fun p =>
        p.2.flatMap fun e => recordsForEntry st.graph dc p.1 e
    { st with attack_surface := sortRecords (st.attack_surface ++ newRecords) }

/-- The dictionary returned by `AttackSurfaceAnalyzer.get_summary`
(lines 213–233); `by_risk` is the severity histogram. -/
structure Summary where
  total_entry_points : Nat
  entry_modules : Nat
  critical_paths : Nat
  total_attack_surface : Nat
  by_risk : RiskLevel → Nat

/-- `AttackSurfaceAnalyzer.get_summary`. -/
def get_summary (st : AnalyzerState) : Summary where
  total_entry_points := (st.entry_points.map (fun p => p.2.length)).sum
  entry_modules := st.entry_points.length
  critical_paths :=
    (st.attack_surface.filter
      (fun r => decide (r.risk_level = .CRITIQUE ∨ r.risk_level = .ELEVE))).length
  total_attack_surface := st.attack_surface.length
  by_risk := fun rl => st.attack_surface.countP (fun r => decide (r.risk_level = rl))

/-- `AttackSurfaceAnalyzer.get_top_risks(top_n)`. -/
def get_top_risks (st : AnalyzerState) (top_n : Nat) : List RiskRecord :=
  st.attack_surface.take top_n

/-- The sort key the *specification* ascribes to the result list: severity
band first with CRITICAL (CRITIQUE) highest, then larger distance first
within a band.  (Used only to state what the spec claims; the code's actual
key is `sortKey`.) -/
def claimedRank : RiskLevel → Nat
  | .CRITIQUE => 3
  | .ELEVE => 2
  | .MOYEN => 1
  | .FAIBLE => 0

/-- `a` may precede `b` under the specification's claimed ordering. -/
@[reducible] def claimedGe (a b : RiskRecord) : Prop :=
  keyLE (claimedRank b.risk_level, (b.distance : Int))
    (claimedRank a.risk_level, (a.distance : Int))

instance : DecidableRel claimedGe := fun _ _ =>
  inferInstanceAs (Decidable (_ ∨ _))

/-! ## Concrete inputs used by witnesses and counterexamples -/

/-- Two modules importing each other (`a.py ↔ b.py`). -/
def exDepsAB : Deps := [(pyLit "a.py", [pyLit "b"]), (pyLit "b.py", [pyLit "a"])]

/-- `a.py` imports `b.py`; the graph is acyclic. -/
def exDepsAcyc : Deps := [(pyLit "a.py", [pyLit "b"]), (pyLit "b.py", [])]

/-- A single module with no imports. -/
def exDepsOne : Deps := [(pyLit "a.py", [])]

/-- A later-registered module `dir/x.py` whose bare filename `x` collides
with the exact full-path candidate `x` of the earlier module `x.py`. -/
def exDepsShadow : Deps :=
  [(pyLit "x.py", []), (pyLit "dir/x.py", []), (pyLit "m.py", [pyLit "x"])]

/-- A package `__init__` module reached through fallback tier 2 by
the raw import `pkg.sub.mod`. -/
def exDepsPkg : Deps :=
  [(pyLit "pkg/__init__.py", []), (pyLit "m.py", [pyLit "pkg.sub.mod"])]

/-- A dotted import `app.models` resolved through tier 3 (`app/models`). -/
def exDepsPath : Deps :=
  [(pyLit "app/models.py", []), (pyLit "m.py", [pyLit "app.models"])]

/-- A cyclic graph over 101 nodes (above the cycle-detection threshold). -/
def exBigCyclic : DiGraph Nat := ⟨List.range 101, [(0, 1), (1, 0)]⟩

/-- Entry graph for the risk-engine examples:
`e → a`, `e → b`, `e → x1 → x2 → c`. -/
def exGraphE : DiGraph Str :=
  ⟨[pyLit "e", pyLit "a", pyLit "b", pyLit "x1", pyLit "x2", pyLit "c"],
    [(pyLit "e", pyLit "a"), (pyLit "e", pyLit "b"), (pyLit "e", pyLit "x1"),
      (pyLit "x1", pyLit "x2"), (pyLit "x2", pyLit "c")]⟩

/-- The single entry point of the examples. -/
def exEntry : EntryPoint := ⟨pyLit "index", pyLit "/"⟩

/-- A fresh analyzer over `exGraphE` with one entry point in module `e`. -/
def exStateE : AnalyzerState := ⟨exGraphE, [(pyLit "e", [exEntry])], []⟩

/-- Centralities chosen so the risk records fall into bands CRITIQUE
(`a`, distance 1, score 0.45), ÉLEVÉ (`b`, distance 1, score 0.16) and
ÉLEVÉ (`c`, distance 3, score 0.125). -/
def exDcE : List (Str × ℚ) :=
  [(pyLit "a", 9/10), (pyLit "b", 8/25), (pyLit "c", 1/2)]

/-- A one-node graph whose only module hosts an entry point. -/
def exGraphSelf : DiGraph Str := ⟨[pyLit "e.py"], []⟩

/-- A fresh analyzer over `exGraphSelf`. -/
def exStateSelf : AnalyzerState :=
  ⟨exGraphSelf, [(pyLit "e.py", [⟨pyLit "home", pyLit "/"⟩])], []⟩

/-- Centrality of the entry module itself, above the 0.3 threshold. -/
def exDcSelf : List (Str × ℚ) := [(pyLit "e.py", 1/2)]

/-- Verification-side invariant of graphs produced by `build_graph`: node
and edge lists are duplicate-free, every edge joins two distinct existing
nodes (networkx `DiGraph` semantics plus the builder's self-import guard). -/
structure GoodGraph (g : DiGraph Str) : Prop where
  nodup_nodes : g.nodes.Nodup
  nodup_edges : g.edges.Nodup
  edge_wf : ∀ e ∈ g.edges, e.1 ∈ g.nodes ∧ e.2 ∈ g.nodes ∧ e.1 ≠ e.2

/-! ## Lemmas about the dict model -/

theorem dictGet?_dictInsert_self {α β : Type} [DecidableEq α]
    (d : List (α × β)) (k : α) (v : β) : dictGet? (dictInsert d k v) k = some v := by
  induction d with
  | nil => simp [dictInsert, dictGet?]
  | cons p rest ih =>
    by_cases h : k = p.1
    · simp [dictInsert, dictGet?, h]
    · simp [dictInsert, dictGet?, h, ih]

theorem mem_of_dictGet? {α β : Type} [DecidableEq α] {d : List (α × β)} {k : α}
    {v : β} (h : dictGet? d k = some v) : (k, v) ∈ d := by
  induction d with
  | nil => simp [dictGet?] at h
  | cons p rest ih =>
    obtain ⟨k', v'⟩ := p
    by_cases hk : k = k'
    · simp only [dictGet?, if_pos hk, Option.some.injEq] at h
      subst hk h
      exact List.mem_cons_self _ _
    · simp only [dictGet?, if_neg hk] at h
      exact List.mem_cons_of_mem _ (ih h)

theorem dictGet?_append_left {α β : Type} [DecidableEq α] {d : List (α × β)}
    {k : α} {v : β} (d' : List (α × β)) (h : dictGet? d k = some v) :
    dictGet? (d ++ d') k = some v := by
  induction d with
  | nil => simp [dictGet?] at h
  | cons p rest ih =>
    obtain ⟨k', v'⟩ := p
    by_cases hk : k = k'
    · simp only [dictGet?, if_pos hk, Option.some.injEq] at h
      simp [dictGet?, hk, h]
    · simp only [dictGet?, if_neg hk] at h
      simpa [dictGet?, hk] using ih h

theorem dictGet?_map_self {α β : Type} [DecidableEq α] (f : α → β) {l : List α}
    {v : α} (hv : v ∈ l) : dictGet? (l.map fun x => (x, f x)) v = some (f v) := by
  induction l with
  | nil => cases hv
  | cons x xs ih =>
    by_cases h : v = x
    · subst h; simp [dictGet?]
    · have hv' : v ∈ xs := by
        rcases List.mem_cons.1 hv with h' | h'
        · exact absurd h' h
        · exact h'
      simp [dictGet?, h, ih hv']

theorem dictInsert_forall {α β : Type} [DecidableEq α] {P : β → Prop}
    {d : List (α × β)} (hd : ∀ p ∈ d, P p.2) {v : β} (hv : P v) (k : α) :
    ∀ p ∈ dictInsert d k v, P p.2 := by
  induction d with
  | nil => simpa [dictInsert] using hv
  | cons q rest ih =>
    obtain ⟨k', v'⟩ := q
    intro p hp
    by_cases h : k = k'
    · simp only [dictInsert, if_pos h] at hp
      rcases List.mem_cons.1 hp with rfl | hp'
      · exact hv
      · exact hd p (List.mem_cons_of_mem _ hp')
    · simp only [dictInsert, if_neg h] at hp
      rcases List.mem_cons.1 hp with rfl | hp'
      · exact hd _ (List.mem_cons_self _ _)
      · exact ih (fun q' hq' => hd q' (List.mem_cons_of_mem _ hq')) p hp'

/-! ## Lemmas about the `DiGraph` model -/

theorem addNode_edges {α : Type} [DecidableEq α] (g : DiGraph α) (v : α) :
    (addNode g v).edges = g.edges := by
  unfold addNode; split <;> rfl

theorem mem_addNode_nodes {α : Type} [DecidableEq α] {g : DiGraph α} {v w : α} :
    w ∈ (addNode g v).nodes ↔ w ∈ g.nodes ∨ w = v := by
  unfold addNode
  split
  · rename_i h
    constructor
    · exact Or.inl
    · rintro (hw | rfl)
      · exact hw
      · exact h
  · simp

theorem addNode_nodes_nodup {α : Type} [DecidableEq α] {g : DiGraph α} (v : α)
    (h : g.nodes.Nodup) : (addNode g v).nodes.Nodup := by
  unfold addNode
  split
  · exact h
  · rename_i hv
    simpa [List.nodup_append] using ⟨h, hv⟩

theorem addNode_of_mem {α : Type} [DecidableEq α] {g : DiGraph α} {v : α}
    (h : v ∈ g.nodes) : addNode g v = g := by
  unfold addNode; rw [if_pos h]

theorem addEdge_nodes_of_mem {α : Type} [DecidableEq α] {g : DiGraph α} {u v : α}
    (hu : u ∈ g.nodes) (hv : v ∈ g.nodes) : (addEdge g u v).nodes = g.nodes := by
  unfold addEdge
  rw [addNode_of_mem hu, addNode_of_mem hv]
  split <;> rfl

theorem mem_addEdge_edges {α : Type} [DecidableEq α] {g : DiGraph α} {u v : α}
    {e : α × α} : e ∈ (addEdge g u v).edges ↔ e ∈ g.edges ∨ e = (u, v) := by
  unfold addEdge
  split
  · rename_i h
    rw [addNode_edges, addNode_edges] at h ⊢
    constructor
    · exact Or.inl
    · rintro (he | rfl)
      · exact he
      · exact h
  · show e ∈ (addNode (addNode g u) v).edges ++ [(u, v)] ↔ _
    rw [addNode_edges, addNode_edges]
    simp [List.mem_append]

theorem addEdge_edges_nodup {α : Type} [DecidableEq α] {g : DiGraph α} {u v : α}
    (h : g.edges.Nodup) : (addEdge g u v).edges.Nodup := by
  unfold addEdge
  split
  · rw [addNode_edges, addNode_edges]
    exact h
  · rename_i huv
    rw [addNode_edges, addNode_edges] at huv
    show ((addNode (addNode g u) v).edges ++ [(u, v)]).Nodup
    rw [addNode_edges, addNode_edges]
    simpa [List.nodup_append] using ⟨h, huv⟩

theorem goodGraph_addEdge {g : DiGraph Str} {u v : Str} (hg : GoodGraph g)
    (hu : u ∈ g.nodes) (hv : v ∈ g.nodes) (huv : u ≠ v) :
    GoodGraph (addEdge g u v) := by
  have hnodes := addEdge_nodes_of_mem hu hv
  refine ⟨?_, addEdge_edges_nodup hg.nodup_edges, ?_⟩
  · rw [hnodes]; exact hg.nodup_nodes
  · intro e he
    rw [hnodes]
    rcases mem_addEdge_edges.1 he with he' | rfl
    · exact hg.edge_wf e he'
    · exact ⟨hu, hv, huv⟩

/-! ## Lemmas about the module registry and import resolution -/

theorem registerModule_forall {P : Str → Prop} {m : List (Str × Str)}
    (hm : ∀ p ∈ m, P p.2) {mod : Str} (hmod : P mod) :
    ∀ p ∈ registerModule m mod, P p.2 := by
  simp only [registerModule]
  split
  · split
    · exact dictInsert_forall (dictInsert_forall hm hmod _) hmod _
    · exact dictInsert_forall hm hmod _
  · exact dictInsert_forall (dictInsert_forall hm hmod _) hmod _

theorem moduleMap_forall (deps : Deps) :
    ∀ p ∈ moduleMap deps, p.2 ∈ deps.map Prod.fst := by
  have key : ∀ (l : Deps) (acc : List (Str × Str)),
      (∀ p ∈ acc, p.2 ∈ deps.map Prod.fst) →
      (∀ p ∈ l, p.1 ∈ deps.map Prod.fst) →
      ∀ p ∈ l.foldl (fun m q => registerModule m q.1) acc, p.2 ∈ deps.map Prod.fst := by
    intro l
    induction l with
    | nil =>
      intro acc hacc _
      simpa using hacc
    | cons q l ih =>
      intro acc hacc hl
      simp only [List.foldl_cons]
      exact ih _ (registerModule_forall hacc (hl q (List.mem_cons_self _ _)))
        (fun p hp => hl p (List.mem_cons_of_mem _ hp))
  exact key deps [] (by simp) (fun p hp => List.mem_map_of_mem _ hp)

theorem matchImport_tier1 {mmap : List (Str × Str)} {dep : Str}
    (h : pyTruthy (dictGet? mmap dep) = true) :
    matchImport mmap dep = dictGet? mmap dep := by
  simp [matchImport, h]

theorem matchImport_tier2 {mmap : List (Str × Str)} {dep v : Str}
    (h1 : pyTruthy (dictGet? mmap dep) = false)
    (h2 : dictGet? mmap (firstSegment dep) = some v) (hv : v ≠ []) :
    matchImport mmap dep = some v := by
  have hv' : pyTruthy (some v) = true := by
    simp [pyTruthy, hv]
  simp [matchImport, h1, h2, hv']

theorem matchImport_tier3 {mmap : List (Str × Str)} {dep v : Str}
    (h1 : pyTruthy (dictGet? mmap dep) = false)
    (h2 : pyTruthy (dictGet? mmap (firstSegment dep)) = false)
    (h3 : dictGet? mmap (replaceStr dep (pyLit ".") (pyLit "/")) = some v) :
    matchImport mmap dep = some v := by
  cases hl2 : dictGet? mmap (firstSegment dep) with
  | none => simp [matchImport, h1, hl2, h3]
  | some w =>
    rw [hl2] at h2
    simp [matchImport, h1, hl2, h2, h3]

theorem matchImport_some {mmap : List (Str × Str)} {dep m : Str}
    (h : matchImport mmap dep = some m) : ∃ k, dictGet? mmap k = some m := by
  by_cases t1 : pyTruthy (dictGet? mmap dep) = true
  · exact ⟨dep, by rw [matchImport_tier1 t1] at h; exact h⟩
  · have t1' : pyTruthy (dictGet? mmap dep) = false := by
      simpa using t1
    cases hl2 : dictGet? mmap (firstSegment dep) with
    | some w =>
      by_cases tw : pyTruthy (some w) = true
      · have hw : w ≠ [] := by
          simpa [pyTruthy] using tw
        rw [matchImport_tier2 t1' hl2 hw] at h
        injection h with hwm
        exact ⟨firstSegment dep, by rw [hl2, hwm]⟩
      · have tw' : pyTruthy (some w) = false := by simpa using tw
        cases hl3 : dictGet? mmap (replaceStr dep (pyLit ".") (pyLit "/")) with
        | some x =>
          rw [matchImport_tier3 t1' (by rw [hl2]; exact tw') hl3] at h
          injection h with hxm
          exact ⟨replaceStr dep (pyLit ".") (pyLit "/"), by rw [hl3, hxm]⟩
        | none =>
          have hres : matchImport mmap dep = some w := by
            simp [matchImport, t1', hl2, tw', hl3]
          rw [hres] at h
          injection h with hwm
          exact ⟨firstSegment dep, by rw [hl2, hwm]⟩
    | none =>
      cases hl3 : dictGet? mmap (replaceStr dep (pyLit ".") (pyLit "/")) with
      | some x =>
        rw [matchImport_tier3 t1' (by rw [hl2]; rfl) hl3] at h
        injection h with hxm
        exact ⟨replaceStr dep (pyLit ".") (pyLit "/"), by rw [hl3, hxm]⟩
      | none =>
        have hres : matchImport mmap dep = dictGet? mmap dep := by
          simp [matchImport, t1', hl2, hl3]
        rw [hres] at h
        exact ⟨dep, h⟩

/-! ## Lemmas about the two phases of `build_graph` -/

theorem foldl_addNode_mem {l : Deps} {g : DiGraph Str} {v : Str} :
    v ∈ (l.foldl (fun g p => addNode g p.1) g).nodes ↔
      v ∈ g.nodes ∨ v ∈ l.map Prod.fst := by
  induction l generalizing g with
  | nil => simp
  | cons p l ih =>
    simp only [List.foldl_cons, List.map_cons, List.mem_cons]
    rw [ih, mem_addNode_nodes]
    tauto

theorem foldl_addNode_edges (l : Deps) (g : DiGraph Str) :
    (l.foldl (fun g p => addNode g p.1) g).edges = g.edges := by
  induction l generalizing g with
  | nil => rfl
  | cons p l ih =>
    simp only [List.foldl_cons]
    rw [ih, addNode_edges]

theorem foldl_addNode_nodup {l : Deps} {g : DiGraph Str} (h : g.nodes.Nodup) :
    (l.foldl (fun g p => addNode g p.1) g).nodes.Nodup := by
  induction l generalizing g with
  | nil => exact h
  | cons p l ih => exact ih (addNode_nodes_nodup _ h)

theorem foldl_addNode_eq {l : Deps} : ∀ {g : DiGraph Str},
    (l.map Prod.fst).Nodup → (∀ v ∈ l.map Prod.fst, v ∉ g.nodes) →
    (l.foldl (fun g p => addNode g p.1) g).nodes = g.nodes ++ l.map Prod.fst := by
  induction l with
  | nil =>
    intro g _ _
    simp
  | cons p l ih =>
    intro g hnd hdisj
    simp only [List.map_cons] at hnd hdisj ⊢
    obtain ⟨hp, hnd'⟩ := List.nodup_cons.1 hnd
    have hpg : p.1 ∉ g.nodes := hdisj _ (List.mem_cons_self _ _)
    have hstep : (addNode g p.1).nodes = g.nodes ++ [p.1] := by
      unfold addNode
      rw [if_neg hpg]
    simp only [List.foldl_cons]
    rw [ih hnd' ?_, hstep, List.append_assoc, List.singleton_append]
    intro v hv
    rw [hstep, List.mem_append, List.mem_singleton]
    rintro (hvg | rfl)
    · exact hdisj v (List.mem_cons_of_mem _ hv) hvg
    · exact hp hv

theorem mem_addImportEdges {mmap : List (Str × Str)} {module : Str}
    {e : Str × Str} : ∀ {imps : List Str} {g : DiGraph Str},
    e ∈ (addImportEdges mmap module g imps).edges ↔
      e ∈ g.edges ∨ ∃ dep ∈ imps, matchImport mmap dep = some e.2 ∧
        e.2 ≠ [] ∧ e.2 ≠ module ∧ e.1 = module := by
  intro imps
  induction imps with
  | nil =>
    intro g
    simp [addImportEdges]
  | cons dep rest ih =>
    intro g
    rw [addImportEdges]
    cases hmi : matchImport mmap dep with
    | none =>
      dsimp only
      rw [ih]
      constructor
      · rintro (hge | ⟨d, hd, hcond⟩)
        · exact Or.inl hge
        · exact Or.inr ⟨d, List.mem_cons_of_mem _ hd, hcond⟩
      · rintro (hge | ⟨d, hd, hcond⟩)
        · exact Or.inl hge
        · rcases List.mem_cons.1 hd with rfl | hd'
          · rw [hmi] at hcond
            exact absurd hcond.1 (by simp)
          · exact Or.inr ⟨d, hd', hcond⟩
    | some m =>
      dsimp only
      by_cases hc : m ≠ [] ∧ m ≠ module
      · rw [if_pos hc, ih, mem_addEdge_edges]
        constructor
        · rintro ((hge | rfl) | ⟨d, hd, hcond⟩)
          · exact Or.inl hge
          · exact Or.inr ⟨dep, List.mem_cons_self _ _, by rw [hmi], hc.1, hc.2, rfl⟩
          · exact Or.inr ⟨d, List.mem_cons_of_mem _ hd, hcond⟩
        · rintro (hge | ⟨d, hd, hcond⟩)
          · exact Or.inl (Or.inl hge)
          · rcases List.mem_cons.1 hd with rfl | hd'
            · obtain ⟨hm, _, _, hfst⟩ := hcond
              rw [hmi] at hm
              injection hm with hm
              refine Or.inl (Or.inr ?_)
              obtain ⟨e1, e2⟩ := e
              simp only at hfst hm
              rw [hfst, ← hm]
            · exact Or.inr ⟨d, hd', hcond⟩
      · rw [if_neg hc, ih]
        push_neg at hc
        constructor
        · rintro (hge | ⟨d, hd, hcond⟩)
          · exact Or.inl hge
          · exact Or.inr ⟨d, List.mem_cons_of_mem _ hd, hcond⟩
        · rintro (hge | ⟨d, hd, hcond⟩)
          · exact Or.inl hge
          · rcases List.mem_cons.1 hd with rfl | hd'
            · obtain ⟨hm, hne, hnm, _⟩ := hcond
              rw [hmi] at hm
              injection hm with hm
              rcases eq_or_ne m [] with rfl | hmne
              · exact absurd hm.symm hne
              · exact absurd (hm ▸ hc hmne) hnm
            · exact Or.inr ⟨d, hd', hcond⟩

theorem addImportEdges_good {mmap : List (Str × Str)} {module : Str} :
    ∀ {imps : List Str} {g : DiGraph Str}, GoodGraph g → module ∈ g.nodes →
    (∀ k m, dictGet? mmap k = some m → m ∈ g.nodes) →
    (addImportEdges mmap module g imps).nodes = g.nodes ∧
      GoodGraph (addImportEdges mmap module g imps) := by
  intro imps
  induction imps with
  | nil =>
    intro g hg _ _
    exact ⟨rfl, hg⟩
  | cons dep rest ih =>
    intro g hg hmod hvals
    rw [addImportEdges]
    cases hmi : matchImport mmap dep with
    | none => exact ih hg hmod hvals
    | some m =>
      dsimp only
      by_cases hc : m ≠ [] ∧ m ≠ module
      · rw [if_pos hc]
        have hm : m ∈ g.nodes := by
          obtain ⟨k, hk⟩ := matchImport_some hmi
          exact hvals k m hk
        have hnodes := addEdge_nodes_of_mem hmod hm
        have hgood := goodGraph_addEdge hg hmod hm (Ne.symm hc.2)
        obtain ⟨h1, h2⟩ := ih hgood (hnodes ▸ hmod) (fun k m' hk => hnodes ▸ hvals k m' hk)
        exact ⟨h1.trans hnodes, h2⟩
      · rw [if_neg hc]
        exact ih hg hmod hvals

theorem foldl_addImportEdges_good {mmap : List (Str × Str)} :
    ∀ {l : Deps} {g : DiGraph Str}, GoodGraph g →
    (∀ p ∈ l, p.1 ∈ g.nodes) → (∀ k m, dictGet? mmap k = some m → m ∈ g.nodes) →
    (l.foldl (fun g p => addImportEdges mmap p.1 g p.2) g).nodes = g.nodes ∧
      GoodGraph (l.foldl (fun g p => addImportEdges mmap p.1 g p.2) g) := by
  intro l
  induction l with
  | nil =>
    intro g hg _ _
    exact ⟨rfl, hg⟩
  | cons p l ih =>
    intro g hg hkeys hvals
    simp only [List.foldl_cons]
    obtain ⟨h1, h2⟩ :=
      @addImportEdges_good mmap p.1 p.2 g hg (hkeys p (List.mem_cons_self _ _)) hvals
    obtain ⟨h3, h4⟩ := ih h2
      (fun q hq => h1 ▸ hkeys q (List.mem_cons_of_mem _ hq))
      (fun k m hk => h1 ▸ hvals k m hk)
    exact ⟨h3.trans h1, h4⟩

theorem mem_foldl_addImportEdges {mmap : List (Str × Str)} {e : Str × Str} :
    ∀ {l : Deps} {g : DiGraph Str},
    e ∈ (l.foldl (fun g p => addImportEdges mmap p.1 g p.2) g).edges ↔
      e ∈ g.edges ∨ ∃ p ∈ l, ∃ dep ∈ p.2, matchImport mmap dep = some e.2 ∧
        e.2 ≠ [] ∧ e.2 ≠ p.1 ∧ e.1 = p.1 := by
  intro l
  induction l with
  | nil =>
    intro g
    simp
  | cons p l ih =>
    intro g
    simp only [List.foldl_cons]
    rw [ih, mem_addImportEdges]
    constructor
    · rintro ((hg | ⟨d, hd, hcond⟩) | ⟨q, hq, d, hd, hcond⟩)
      · exact Or.inl hg
      · exact Or.inr ⟨p, List.mem_cons_self _ _, d, hd, hcond⟩
      · exact Or.inr ⟨q, List.mem_cons_of_mem _ hq, d, hd, hcond⟩
    · rintro (hg | ⟨q, hq, d, hd, hcond⟩)
      · exact Or.inl (Or.inl hg)
      · rcases List.mem_cons.1 hq with rfl | hq'
        · exact Or.inl (Or.inr ⟨d, hd, hcond⟩)
        · exact Or.inr ⟨q, hq', d, hd, hcond⟩

/-! ## Lemmas about `build_graph` -/

theorem build_graph_edges_iff (deps : Deps) (e : Str × Str) :
    e ∈ (build_graph deps).edges ↔ ∃ p ∈ deps, ∃ dep ∈ p.2,
      matchImport (moduleMap deps) dep = some e.2 ∧ e.2 ≠ [] ∧ e.2 ≠ p.1 ∧
        e.1 = p.1 := by
  simp only [build_graph]
  rw [mem_foldl_addImportEdges, foldl_addNode_edges]
  simp

theorem goodGraph_empty : GoodGraph (⟨[], []⟩ : DiGraph Str) :=
  ⟨List.nodup_nil, List.nodup_nil, by simp⟩

theorem build_graph_split (deps : Deps) :
    (build_graph deps).nodes =
      (deps.foldl (fun g p => addNode g p.1) (⟨[], []⟩ : DiGraph Str)).nodes ∧
      GoodGraph (build_graph deps) := by
  have hg0 : GoodGraph (deps.foldl (fun g p => addNode g p.1) (⟨[], []⟩ : DiGraph Str)) := by
    refine ⟨foldl_addNode_nodup List.nodup_nil, ?_, ?_⟩
    · rw [foldl_addNode_edges]
      exact List.nodup_nil
    · rw [foldl_addNode_edges]
      simp
  have hkeys : ∀ p ∈ deps,
      p.1 ∈ (deps.foldl (fun g p => addNode g p.1) (⟨[], []⟩ : DiGraph Str)).nodes := by
    intro p hp
    rw [foldl_addNode_mem]
    exact Or.inr (List.mem_map_of_mem _ hp)
  have hvals : ∀ k m, dictGet? (moduleMap deps) k = some m →
      m ∈ (deps.foldl (fun g p => addNode g p.1) (⟨[], []⟩ : DiGraph Str)).nodes := by
    intro k m hk
    rw [foldl_addNode_mem]
    exact Or.inr (moduleMap_forall deps _ (mem_of_dictGet? hk))
  obtain ⟨h1, h2⟩ := foldl_addImportEdges_good hg0 hkeys hvals
  exact ⟨h1, h2⟩

theorem build_graph_good (deps : Deps) : GoodGraph (build_graph deps) :=
  (build_graph_split deps).2

theorem build_graph_nodes (deps : Deps) (h : (deps.map Prod.fst).Nodup) :
    (build_graph deps).nodes = deps.map Prod.fst := by
  rw [(build_graph_split deps).1, foldl_addNode_eq h (by simp)]
  rfl

/-! ## Lemmas about `degree_centrality` -/

theorem degree_centrality_lookup {α : Type} [DecidableEq α] (g : DiGraph α)
    {v : α} (hv : v ∈ g.nodes) (h : 1 < g.nodes.length) :
    dictGet? (degree_centrality g) v =
      some (((inDegree g v + outDegree g v : ℕ) : ℚ) / ((g.nodes.length : ℚ) - 1)) := by
  unfold degree_centrality
  rw [if_neg (by omega)]
  exact dictGet?_map_self _ hv

theorem degree_centrality_small {α : Type} [DecidableEq α] (g : DiGraph α)
    (h : g.nodes.length ≤ 1) : ∀ p ∈ degree_centrality g, p.2 = 1 := by
  unfold degree_centrality
  rw [if_pos h]
  intro p hp
  obtain ⟨v, _, rfl⟩ := List.mem_map.1 hp
  rfl

theorem inDegree_le {g : DiGraph Str} (hg : GoodGraph g) (v : Str) :
    inDegree g v ≤ g.nodes.length - 1 := by
  by_cases hv : v ∈ g.nodes
  · have hlnd : (g.edges.filter (fun e => decide (e.2 = v))).Nodup :=
      hg.nodup_edges.sublist (List.filter_sublist _)
    have hmapnd : ((g.edges.filter (fun e => decide (e.2 = v))).map Prod.fst).Nodup := by
      refine List.Nodup.map_on ?_ hlnd
      intro x hx y hy hxy
      have hx2 : x.2 = v := by simpa using (List.mem_filter.1 hx).2
      have hy2 : y.2 = v := by simpa using (List.mem_filter.1 hy).2
      exact Prod.ext hxy (hx2.trans hy2.symm)
    have hsub : (g.edges.filter (fun e => decide (e.2 = v))).map Prod.fst ⊆
        g.nodes.erase v := by
      intro x hx
      obtain ⟨e, he, rfl⟩ := List.mem_map.1 hx
      have hef := List.mem_filter.1 he
      have h2 : e.2 = v := by simpa using hef.2
      obtain ⟨h1n, _, hne⟩ := hg.edge_wf e hef.1
      rw [hg.nodup_nodes.mem_erase_iff]
      exact ⟨by rw [← h2]; exact hne, h1n⟩
    have hlen := (hmapnd.subperm hsub).length_le
    rw [List.length_map, List.length_erase_of_mem hv] at hlen
    exact hlen
  · have hempty : g.edges.filter (fun e => decide (e.2 = v)) = [] := by
      rw [List.filter_eq_nil_iff]
      intro e he
      have := (hg.edge_wf e he).2.1
      simp only [decide_eq_true_eq]
      intro h2
      exact hv (h2 ▸ this)
    simp [inDegree, hempty]

theorem outDegree_le {g : DiGraph Str} (hg : GoodGraph g) (v : Str) :
    outDegree g v ≤ g.nodes.length - 1 := by
  by_cases hv : v ∈ g.nodes
  · have hlnd : (g.edges.filter (fun e => decide (e.1 = v))).Nodup :=
      hg.nodup_edges.sublist (List.filter_sublist _)
    have hmapnd : ((g.edges.filter (fun e => decide (e.1 = v))).map Prod.snd).Nodup := by
      refine List.Nodup.map_on ?_ hlnd
      intro x hx y hy hxy
      have hx1 : x.1 = v := by simpa using (List.mem_filter.1 hx).2
      have hy1 : y.1 = v := by simpa using (List.mem_filter.1 hy).2
      exact Prod.ext (hx1.trans hy1.symm) hxy
    have hsub : (g.edges.filter (fun e => decide (e.1 = v))).map Prod.snd ⊆
        g.nodes.erase v := by
      intro x hx
      obtain ⟨e, he, rfl⟩ := List.mem_map.1 hx
      have hef := List.mem_filter.1 he
      have h1 : e.1 = v := by simpa using hef.2
      obtain ⟨_, h2n, hne⟩ := hg.edge_wf e hef.1
      rw [hg.nodup_nodes.mem_erase_iff]
      exact ⟨by rw [← h1]; exact (Ne.symm hne), h2n⟩
    have hlen := (hmapnd.subperm hsub).length_le
    rw [List.length_map, List.length_erase_of_mem hv] at hlen
    exact hlen
  · have hempty : g.edges.filter (fun e => decide (e.1 = v)) = [] := by
      rw [List.filter_eq_nil_iff]
      intro e he
      have := (hg.edge_wf e he).1
      simp only [decide_eq_true_eq]
      intro h1
      exact hv (h1 ▸ this)
    simp [outDegree, hempty]

/-! ## Lemmas about the distance computation and the risk engine -/

theorem splLoop_append {g : DiGraph Str} :
    ∀ (fuel : Nat) (frontier : List Str) (dist : List (Str × Nat)) (d : Nat),
    ∃ rest, splLoop g fuel frontier dist d = dist ++ rest := by
  intro fuel
  induction fuel with
  | zero =>
    intro frontier dist d
    exact ⟨[], by simp [splLoop]⟩
  | succ fuel ih =>
    intro frontier dist d
    simp only [splLoop]
    split
    · exact ⟨[], by simp⟩
    · obtain ⟨rest, hrest⟩ := ih _ (dist ++ _) (d + 1)
      exact ⟨_, by rw [hrest, List.append_assoc]⟩

theorem splLoop_lt {g : DiGraph Str} :
    ∀ (fuel : Nat) (frontier : List Str) (dist : List (Str × Nat)) (d : Nat),
    (∀ p ∈ dist, p.2 < d) → ∀ p ∈ splLoop g fuel frontier dist d, p.2 < d + fuel := by
  intro fuel
  induction fuel with
  | zero =>
    intro frontier dist d hd p hp
    simpa using hd p (by simpa [splLoop] using hp)
  | succ fuel ih =>
    intro frontier dist d hd p hp
    simp only [splLoop] at hp
    split at hp
    · have := hd p hp
      omega
    · have hd' : ∀ q ∈ dist ++
          (((frontier.flatMap (successors g)).filter
              (fun v => (dictGet? dist v).isNone)).foldl
            (fun acc v => if v ∈ acc then acc else acc ++ [v]) []).map
            (fun v => (v, d)), q.2 < d + 1 := by
        intro q hq
        rcases List.mem_append.1 hq with hq' | hq'
        · have := hd q hq'
          omega
        · obtain ⟨w, _, rfl⟩ := List.mem_map.1 hq'
          omega
      have := ih _ _ (d + 1) hd' p hp
      omega

theorem calcDistances_le {g : DiGraph Str} {em : Str} :
    ∀ p ∈ calcDistances g em, p.2 ≤ 5 := by
  intro p hp
  unfold calcDistances at hp
  split at hp
  · have := splLoop_lt (g := g) 5 [em] [(em, 0)] 1 (by simp) p hp
    omega
  · simp at hp

theorem calcDistances_self {g : DiGraph Str} {em : Str} (h : em ∈ g.nodes) :
    dictGet? (calcDistances g em) em = some 0 := by
  unfold calcDistances
  rw [if_pos h]
  unfold single_source_shortest_path_length
  obtain ⟨rest, hrest⟩ := splLoop_append (g := g) 5 [em] [(em, 0)] 1
  rw [hrest]
  exact dictGet?_append_left _ (by simp [dictGet?])

theorem mem_recordsForEntry_iff {g : DiGraph Str} {dc : List (Str × ℚ)}
    {em : Str} {e : EntryPoint} {tm : Str} {d : Nat}
    (hmem : (tm, d) ∈ calcDistances g em) :
    mkRiskRecord em e tm d ((dictGet? dc tm).getD 0) ∈ recordsForEntry g dc em e ↔
      ((dictGet? dc tm).getD 0 > 3/10 ∧ d ≤ 3) := by
  constructor
  · intro hr
    obtain ⟨⟨tm', d'⟩, _, hf⟩ := List.mem_filterMap.1 hr
    by_cases h5 : d' > 5
    · simp [if_pos h5] at hf
    · rw [if_neg h5] at hf
      by_cases hcond : (dictGet? dc tm').getD 0 > 3/10 ∧ d' ≤ 3
      · rw [if_pos hcond] at hf
        injection hf with hf'
        have htm : tm' = tm := by
          have := congrArg RiskRecord.target_module hf'
          simpa [mkRiskRecord] using this
        have hd : d' = d := by
          have := congrArg RiskRecord.distance hf'
          simpa [mkRiskRecord] using this
        rw [htm, hd] at hcond
        exact hcond
      · simp [if_neg hcond] at hf
  · intro hcond
    refine List.mem_filterMap.2 ⟨(tm, d), hmem, ?_⟩
    rw [if_neg (by omega)]
    dsimp only
    rw [if_pos hcond]

theorem mem_calculate_attack_surface {st : AnalyzerState} {dc : List (Str × ℚ)}
    {r : RiskRecord} :
    r ∈ (calculate_attack_surface st dc).attack_surface ↔
      r ∈ st.attack_surface ∨ ∃ p ∈ st.entry_points, ∃ e ∈ p.2,
        r ∈ recordsForEntry st.graph dc p.1 e := by
  unfold calculate_attack_surface
  split
  · rename_i h
    simp [h]
  · simp only
    rw [sortRecords, List.mem_insertionSort, List.mem_append]
    simp [List.mem_flatMap]

theorem calculate_attack_surface_surface (st : AnalyzerState) (dc : List (Str × ℚ))
    (h : st.entry_points ≠ []) :
    (calculate_attack_surface st dc).attack_surface =
      sortRecords (st.attack_surface ++ st.entry_points.flatMap fun p =>
        p.2.flatMap fun e => recordsForEntry st.graph dc p.1 e) := by
  rw [calculate_attack_surface, if_neg h]

theorem calculate_attack_surface_frame (st : AnalyzerState) (dc : List (Str × ℚ)) :
    (calculate_attack_surface st dc).graph = st.graph ∧
    (calculate_attack_surface st dc).entry_points = st.entry_points := by
  rw [calculate_attack_surface]
  split
  · exact ⟨rfl, rfl⟩
  · exact ⟨rfl, rfl⟩

/-! ## The claims -/

/-- C8: for every input map, the built graph has exactly one node per key of
the map (modules with empty or unresolved import sets included), and every
edge's endpoints are nodes of the graph. -/
theorem C8_nodes_and_edge_endpoints (deps : Deps)
    (hnd : (deps.map Prod.fst).Nodup) :
    numberOfNodes (build_graph deps) = deps.length ∧
      ∀ e ∈ (build_graph deps).edges,
        e.1 ∈ (build_graph deps).nodes ∧ e.2 ∈ (build_graph deps).nodes := by
  constructor
  · rw [numberOfNodes, build_graph_nodes deps hnd, List.length_map]
  · intro e he
    obtain ⟨h1, h2, _⟩ := (build_graph_good deps).edge_wf e he
    exact ⟨h1, h2⟩

/-- Witness for C8 at the two-module input `exDepsAB`: 2 nodes, and the
edge `a.py → b.py` joins two nodes of the graph. -/
theorem C8_witness :
    (exDepsAB.map Prod.fst).Nodup ∧
    numberOfNodes (build_graph exDepsAB) = exDepsAB.length ∧
    ((pyLit "a.py", pyLit "b.py") ∈ (build_graph exDepsAB).edges ∧
      pyLit "a.py" ∈ (build_graph exDepsAB).nodes ∧
      pyLit "b.py" ∈ (build_graph exDepsAB).nodes) := by
  have h := C8_nodes_and_edge_endpoints exDepsAB (by decide)
  exact ⟨by decide, h.1, by decide, h.2 (pyLit "a.py", pyLit "b.py") (by decide)⟩

/-- C2: `get_graph_info` reports `cycles = 0` whenever the acyclicity flag
is true; the exact simple-cycle count when the flag is false and the node
count is at most 100; and the sentinel `-1` when the flag is false and the
node count exceeds 100, in which case `detect_cycles` also returns `[]`. -/
theorem C2_graph_info_cycles {α : Type} [DecidableEq α] (g : DiGraph α) :
    ((get_graph_info g).is_dag = true → (get_graph_info g).cycles = 0) ∧
    ((get_graph_info g).is_dag = false → (get_graph_info g).nodes ≤ 100 →
      (get_graph_info g).cycles = ((simple_cycles g).length : Int)) ∧
    ((get_graph_info g).is_dag = false → 100 < (get_graph_info g).nodes →
      (get_graph_info g).cycles = -1 ∧ detect_cycles g 100 = []) := by
  have hcycles : (get_graph_info g).cycles =
      if numberOfNodes g ≤ 100 ∧ is_directed_acyclic_graph g = false
      then ((detect_cycles g 100).length : Int)
      else if is_directed_acyclic_graph g then 0 else -1 := rfl
  have hdag : (get_graph_info g).is_dag = is_directed_acyclic_graph g := rfl
  have hn : (get_graph_info g).nodes = numberOfNodes g := rfl
  refine ⟨?_, ?_, ?_⟩
  · intro h
    rw [hdag] at h
    rw [hcycles, if_neg (by simp [h]), if_pos h]
  · intro h1 h2
    rw [hdag] at h1
    rw [hn] at h2
    rw [hcycles, if_pos ⟨h2, h1⟩]
    have : detect_cycles g 100 = simple_cycles g := by
      unfold detect_cycles detectCyclesCore
      rw [if_neg (by omega)]
    rw [this]
  · intro h1 h2
    rw [hdag] at h1
    rw [hn] at h2
    have hdc : detect_cycles g 100 = [] := by
      unfold detect_cycles detectCyclesCore
      rw [if_pos (by omega)]
    refine ⟨?_, hdc⟩
    rw [hcycles, if_neg (by omega), if_neg (by simp [h1])]

/-- Witness for C2: an acyclic two-module graph (`cycles = 0`), a cyclic
two-module graph (`cycles` = exact count), and a cyclic graph on 101 nodes
(`cycles = -1`, `detect_cycles` empty). -/
theorem C2_witness :
    (get_graph_info (build_graph exDepsAcyc)).cycles = 0 ∧
    (get_graph_info (build_graph exDepsAB)).cycles =
      ((simple_cycles (build_graph exDepsAB)).length : Int) ∧
    ((get_graph_info exBigCyclic).cycles = -1 ∧ detect_cycles exBigCyclic 100 = []) :=
  ⟨(C2_graph_info_cycles _).1 (by decide),
    (C2_graph_info_cycles _).2.1 (by decide) (by decide),
    (C2_graph_info_cycles _).2.2 (by decide) (by decide)⟩

/-- C9: the `try`/bare-`except` body of `detect_cycles` maps an enumeration
failure to `[]`; any graph over the 100-node threshold also yields `[]`; so
an empty result does not distinguish a genuinely acyclic graph from an
over-threshold (or failed) one — both kinds of graph are exhibited. -/
theorem C9_detect_cycles_never_raises :
    (∀ (numNodes maxNodes : Nat) (err : Unit),
      detectCyclesCore (α := Nat) numNodes maxNodes (Except.error err) = []) ∧
    (∀ g : DiGraph Nat, 100 < numberOfNodes g → detect_cycles g 100 = []) ∧
    (is_directed_acyclic_graph (build_graph exDepsAcyc) = true ∧
      detect_cycles (build_graph exDepsAcyc) 100 = [] ∧
      is_directed_acyclic_graph exBigCyclic = false ∧
      100 < numberOfNodes exBigCyclic ∧ detect_cycles exBigCyclic 100 = []) := by
  refine ⟨?_, ?_, by decide, by decide, by decide, by decide, by decide⟩
  · intro n m err
    unfold detectCyclesCore
    split
    · rfl
    · rfl
  · intro g hg
    unfold detect_cycles detectCyclesCore
    rw [if_pos hg]

/-- Witness for C9 at concrete inputs: the handler on an error value, and
the over-threshold graph. -/
theorem C9_witness :
    detectCyclesCore (α := Nat) 101 100 (Except.error ()) = [] ∧
    detect_cycles exBigCyclic 100 = [] :=
  ⟨C9_detect_cycles_never_raises.1 101 100 (),
    C9_detect_cycles_never_raises.2.1 exBigCyclic (by decide)⟩

/-- C3 counterexample: `"x"` is the exact full-path candidate of the module
`x.py` (its path with the extension stripped), yet because the bare-filename
candidate of the later-registered module `dir/x.py` overwrites the same
registry key, the raw import `"x"` resolves to `dir/x.py`, not to `x.py`:
the exact-path candidate does **not** always win. -/
theorem C3_counterexample :
    replaceStr (pyLit "x.py") (pyLit ".py") [] = pyLit "x" ∧
    dictGet? (moduleMap exDepsShadow) (pyLit "x") = some (pyLit "dir/x.py") ∧
    matchImport (moduleMap exDepsShadow) (pyLit "x") = some (pyLit "dir/x.py") ∧
    (build_graph exDepsShadow).edges = [(pyLit "m.py", pyLit "dir/x.py")] := by
  decide

/-- C3 (amended): resolution tries the three tiers in order and stops at
the first hit (a hit being a lookup whose value is non-empty, per Python
truthiness); the registry lookup behind each tier is last-write-wins; and
every edge of the built graph comes from an import one of whose tiers
resolved — an import matching no tier contributes no edge and no error. -/
theorem C3_resolution_order (mmap : List (Str × Str)) (dep : Str) :
    (pyTruthy (dictGet? mmap dep) = true →
      matchImport mmap dep = dictGet? mmap dep) ∧
    (pyTruthy (dictGet? mmap dep) = false →
      ∀ v, dictGet? mmap (firstSegment dep) = some v → v ≠ [] →
        matchImport mmap dep = some v) ∧
    (pyTruthy (dictGet? mmap dep) = false →
      pyTruthy (dictGet? mmap (firstSegment dep)) = false →
      ∀ v, dictGet? mmap (replaceStr dep (pyLit ".") (pyLit "/")) = some v →
        matchImport mmap dep = some v) ∧
    (∀ (d : List (Str × Str)) (k v : Str), dictGet? (dictInsert d k v) k = some v) ∧
    (∀ (deps : Deps) (e : Str × Str), e ∈ (build_graph deps).edges →
      ∃ p ∈ deps, ∃ d ∈ p.2, matchImport (moduleMap deps) d = some e.2 ∧
        e.2 ≠ [] ∧ e.2 ≠ p.1 ∧ e.1 = p.1) :=
  ⟨matchImport_tier1,
    fun h1 _ h2 hv => matchImport_tier2 h1 h2 hv,
    fun h1 h2 _ h3 => matchImport_tier3 h1 h2 h3,
    fun d k v => dictGet?_dictInsert_self d k v,
    fun deps e he => (build_graph_edges_iff deps e).1 he⟩

/-- Witness for C3: tier 1 on a direct hit, tier 2 on a dotted import into
a package, tier 3 on a dotted path, and the edge characterisation on the
mutual-import example. -/
theorem C3_witness :
    matchImport (moduleMap exDepsAB) (pyLit "b") = dictGet? (moduleMap exDepsAB) (pyLit "b") ∧
    matchImport (moduleMap exDepsPkg) (pyLit "pkg.sub.mod") = some (pyLit "pkg/__init__.py") ∧
    matchImport (moduleMap exDepsPath) (pyLit "app.models") = some (pyLit "app/models.py") ∧
    (∃ p ∈ exDepsAB, ∃ d ∈ p.2, matchImport (moduleMap exDepsAB) d = some (pyLit "b.py") ∧
      pyLit "b.py" ≠ [] ∧ pyLit "b.py" ≠ p.1 ∧ pyLit "a.py" = p.1) :=
  ⟨(C3_resolution_order (moduleMap exDepsAB) (pyLit "b")).1 (by decide),
    (C3_resolution_order (moduleMap exDepsPkg) (pyLit "pkg.sub.mod")).2.1
      (by decide) _ (by decide) (by decide),
    (C3_resolution_order (moduleMap exDepsPath) (pyLit "app.models")).2.2.1
      (by decide) (by decide) _ (by decide),
    (C3_resolution_order (moduleMap exDepsAB) (pyLit "b")).2.2.2.2 exDepsAB
      (pyLit "a.py", pyLit "b.py") (by decide)⟩

/-- C4 counterexample: on the mutual-import graph `a.py ↔ b.py` (2 nodes),
degree centrality of `a.py` is `(1+1)/(2-1) = 2 > 1`: for a directed graph
networkx's normalisation does not bound the values by 1. -/
theorem C4_counterexample :
    dictGet? (degree_centrality (build_graph exDepsAB)) (pyLit "a.py") = some 2 ∧
    ¬ ∀ p ∈ degree_centrality (build_graph exDepsAB), 0 ≤ p.2 ∧ p.2 ≤ 1 := by
  with_unfolding_all decide

/-- C4 (amended): for every built dependency graph, every degree-centrality
value lies in the interval [0, 2] (the tight bound for a directed graph
without self-loops or parallel edges). -/
theorem C4_degree_centrality_bounds (deps : Deps) :
    ∀ p ∈ degree_centrality (build_graph deps), 0 ≤ p.2 ∧ p.2 ≤ 2 := by
  intro p hp
  by_cases h : (build_graph deps).nodes.length ≤ 1
  · rw [degree_centrality_small _ h p hp]
    norm_num
  · push_neg at h
    unfold degree_centrality at hp
    rw [if_neg (by omega)] at hp
    obtain ⟨v, _, rfl⟩ := List.mem_map.1 hp
    dsimp only
    have hg := build_graph_good deps
    have hin := inDegree_le hg v
    have hout := outDegree_le hg v
    have hpos : (0:ℚ) < ((build_graph deps).nodes.length : ℚ) - 1 := by
      have : (2:ℚ) ≤ ((build_graph deps).nodes.length : ℚ) := by exact_mod_cast h
      linarith
    constructor
    · apply div_nonneg
      · positivity
      · linarith
    · rw [div_le_iff₀ hpos]
      have hsum : inDegree (build_graph deps) v + outDegree (build_graph deps) v ≤
          2 * ((build_graph deps).nodes.length - 1) := by omega
      calc ((inDegree (build_graph deps) v + outDegree (build_graph deps) v : ℕ) : ℚ)
          ≤ ((2 * ((build_graph deps).nodes.length - 1) : ℕ) : ℚ) := by exact_mod_cast hsum
        _ = 2 * (((build_graph deps).nodes.length : ℚ) - 1) := by
            push_cast [Nat.cast_sub (by omega : 1 ≤ (build_graph deps).nodes.length)]
            ring

/-- Witness for C4 at the mutual-import graph: the value 2 of `a.py`
satisfies the amended bounds. -/
theorem C4_witness :
    (pyLit "a.py", (2:ℚ)) ∈ degree_centrality (build_graph exDepsAB) ∧
    (0 ≤ (2:ℚ) ∧ (2:ℚ) ≤ 2) :=
  ⟨by with_unfolding_all decide,
    C4_degree_centrality_bounds exDepsAB (pyLit "a.py", (2:ℚ))
      (by with_unfolding_all decide)⟩

/-- C5 counterexample: on a single-module input the graph has one node and
networkx's `degree_centrality` assigns it the value 1, not 0. -/
theorem C5_counterexample :
    numberOfNodes (build_graph exDepsOne) = 1 ∧
    degree_centrality (build_graph exDepsOne) = [(pyLit "a.py", 1)] ∧
    ¬ ∀ p ∈ degree_centrality (build_graph exDepsOne), p.2 = 0 := by
  with_unfolding_all decide

/-- C5 (amended): for node count above 1 every module's degree centrality
is `(inDegree + outDegree) / (nodeCount − 1)`; for node count at most 1
every value in the map is 1 (networkx's convention), not 0. -/
theorem C5_degree_centrality_formula {α : Type} [DecidableEq α] (g : DiGraph α) :
    (1 < g.nodes.length → ∀ v ∈ g.nodes, dictGet? (degree_centrality g) v =
      some (((inDegree g v + outDegree g v : ℕ) : ℚ) / ((g.nodes.length : ℚ) - 1))) ∧
    (g.nodes.length ≤ 1 → ∀ p ∈ degree_centrality g, p.2 = 1) :=
  ⟨fun h _ hv => degree_centrality_lookup g hv h, degree_centrality_small g⟩

/-- Witness for C5: the formula at `a.py` in the two-node graph, and the
constant 1 on the one-node graph. -/
theorem C5_witness :
    dictGet? (degree_centrality (build_graph exDepsAB)) (pyLit "a.py") =
      some (((inDegree (build_graph exDepsAB) (pyLit "a.py") +
        outDegree (build_graph exDepsAB) (pyLit "a.py") : ℕ) : ℚ) /
        (((build_graph exDepsAB).nodes.length : ℚ) - 1)) ∧
    ∀ p ∈ degree_centrality (build_graph exDepsOne), p.2 = 1 :=
  ⟨(C5_degree_centrality_formula (build_graph exDepsAB)).1 (by decide) _ (by decide),
    (C5_degree_centrality_formula (build_graph exDepsOne)).2 (by decide)⟩

/-- C6: every distance produced by the (5-hop-capped) discovery is at most
5; a `(entry, target, distance)` triple yields its risk record if and only
if the looked-up centrality exceeds 0.3 and the distance is at most 3;
every record's risk level is the pure band function of its distance and
centrality (and its fields satisfy the two thresholds); and the analyzer's
result list consists exactly of the previous records plus the per-triple
records of every entry point. -/
theorem C6_risk_record_production :
    (∀ (g : DiGraph Str) (em : Str), ∀ p ∈ calcDistances g em, p.2 ≤ 5) ∧
    (∀ (g : DiGraph Str) (dc : List (Str × ℚ)) (em : Str) (e : EntryPoint)
      (tm : Str) (d : Nat), (tm, d) ∈ calcDistances g em →
      (mkRiskRecord em e tm d ((dictGet? dc tm).getD 0) ∈ recordsForEntry g dc em e ↔
        ((dictGet? dc tm).getD 0 > 3/10 ∧ d ≤ 3))) ∧
    (∀ (g : DiGraph Str) (dc : List (Str × ℚ)) (em : Str) (e : EntryPoint),
      ∀ r ∈ recordsForEntry g dc em e,
        r.risk_level = riskLevelOf r.distance r.centrality ∧
        r.centrality > 3/10 ∧ r.distance ≤ 3 ∧
        r.centrality = (dictGet? dc r.target_module).getD 0) ∧
    (∀ (st : AnalyzerState) (dc : List (Str × ℚ)) (r : RiskRecord),
      r ∈ (calculate_attack_surface st dc).attack_surface ↔
        r ∈ st.attack_surface ∨ ∃ p ∈ st.entry_points, ∃ e ∈ p.2,
          r ∈ recordsForEntry st.graph dc p.1 e) := by
  refine ⟨fun g em => calcDistances_le, fun g dc em e tm d h => mem_recordsForEntry_iff h,
    ?_, fun st dc r => mem_calculate_attack_surface⟩
  intro g dc em e r hr
  obtain ⟨⟨tm, d⟩, _, hf⟩ := List.mem_filterMap.1 hr
  dsimp only at hf
  by_cases h5 : d > 5
  · rw [if_pos h5] at hf
    cases hf
  · rw [if_neg h5] at hf
    by_cases hcond : (dictGet? dc tm).getD 0 > 3/10 ∧ d ≤ 3
    · rw [if_pos hcond] at hf
      injection hf with hf'
      subst hf'
      exact ⟨rfl, hcond.1, hcond.2, rfl⟩
    · rw [if_neg hcond] at hf
      cases hf

/-- Witness for C6 at the example graph: the triple `(a, 1)` from entry `e`
passes both thresholds and yields its record. -/
theorem C6_witness :
    ((pyLit "a", 1) ∈ calcDistances exGraphE (pyLit "e")) ∧
    ((dictGet? exDcE (pyLit "a")).getD 0 > 3/10 ∧ (1:ℕ) ≤ 3) ∧
    mkRiskRecord (pyLit "e") exEntry (pyLit "a") 1 ((dictGet? exDcE (pyLit "a")).getD 0) ∈
      recordsForEntry exGraphE exDcE (pyLit "e") exEntry := by
  have hmem : (pyLit "a", 1) ∈ calcDistances exGraphE (pyLit "e") := by decide
  have hcond : (dictGet? exDcE (pyLit "a")).getD 0 > 3/10 ∧ (1:ℕ) ≤ 3 :=
    ⟨by with_unfolding_all decide, by decide⟩
  exact ⟨hmem, hcond,
    (C6_risk_record_production.2.1 exGraphE exDcE (pyLit "e") exEntry
      (pyLit "a") 1 hmem).2 hcond⟩

/-- C7 counterexample: on a one-node graph whose module hosts an entry
point and has centrality 0.5, the produced result list contains exactly one
record whose `target_module` equals its `entry_point` (distance 0): the
entry module *is* among the distance targets. -/
theorem C7_counterexample :
    (calculate_attack_surface exStateSelf exDcSelf).attack_surface =
      [⟨pyLit "e.py", pyLit "home", pyLit "/", pyLit "e.py", 0, 1/2,
        RiskLevel.CRITIQUE⟩] ∧
    ¬ ∀ r ∈ (calculate_attack_surface exStateSelf exDcSelf).attack_surface,
        r.target_module ≠ r.entry_point := by
  with_unfolding_all decide

/-- C7 (amended): the distance map of an entry module present in the graph
contains the entry module itself at distance 0, and consequently whenever
the entry module's own centrality exceeds 0.3 a risk record with
`target_module = entry_point` and distance 0 is produced. -/
theorem C7_distances_include_entry :
    (∀ (g : DiGraph Str) (em : Str), em ∈ g.nodes →
      dictGet? (calcDistances g em) em = some 0) ∧
    (∀ (st : AnalyzerState) (dc : List (Str × ℚ)), ∀ p ∈ st.entry_points,
      ∀ e ∈ p.2, p.1 ∈ st.graph.nodes → (dictGet? dc p.1).getD 0 > 3/10 →
      mkRiskRecord p.1 e p.1 0 ((dictGet? dc p.1).getD 0) ∈
        (calculate_attack_surface st dc).attack_surface) := by
  refine ⟨fun g em h => calcDistances_self h, ?_⟩
  intro st dc p hp e he hnode hc
  rw [mem_calculate_attack_surface]
  refine Or.inr ⟨p, hp, e, he, ?_⟩
  have hmem : (p.1, 0) ∈ calcDistances st.graph p.1 :=
    mem_of_dictGet? (calcDistances_self hnode)
  exact (mem_recordsForEntry_iff hmem).2 ⟨hc, by omega⟩

/-- Witness for C7 on the one-node example: distance 0 to itself, and the
self-targeting record in the final result list. -/
theorem C7_witness :
    dictGet? (calcDistances exGraphSelf (pyLit "e.py")) (pyLit "e.py") = some 0 ∧
    mkRiskRecord (pyLit "e.py") ⟨pyLit "home", pyLit "/"⟩ (pyLit "e.py") 0
        ((dictGet? exDcSelf (pyLit "e.py")).getD 0) ∈
      (calculate_attack_surface exStateSelf exDcSelf).attack_surface :=
  ⟨C7_distances_include_entry.1 exGraphSelf (pyLit "e.py") (by decide),
    C7_distances_include_entry.2 exStateSelf exDcSelf
      (pyLit "e.py", [⟨pyLit "home", pyLit "/"⟩]) (by decide)
      ⟨pyLit "home", pyLit "/"⟩ (by decide) (by decide)
      (by with_unfolding_all decide)⟩

/-- C1 counterexample: a run producing one CRITIQUE record and two ÉLEVÉ
records (at distances 1 and 3) is sorted by the code as
`[ÉLEVÉ d=1, ÉLEVÉ d=3, CRITIQUE d=1]`: the bands are ordered by descending
*string* order (`"ÉLEVÉ" > "MOYEN" > "FAIBLE" > "CRITIQUE"`), so CRITIQUE
comes last, not first, and within the ÉLEVÉ band the smaller distance comes
first, not the larger — the claimed ordering fails on both counts. -/
theorem C1_counterexample :
    (calculate_attack_surface exStateE exDcE).attack_surface =
      [mkRiskRecord (pyLit "e") exEntry (pyLit "b") 1 (8/25),
        mkRiskRecord (pyLit "e") exEntry (pyLit "c") 3 (1/2),
        mkRiskRecord (pyLit "e") exEntry (pyLit "a") 1 (9/10)] ∧
    (mkRiskRecord (pyLit "e") exEntry (pyLit "b") 1 (8/25)).risk_level = RiskLevel.ELEVE ∧
    (mkRiskRecord (pyLit "e") exEntry (pyLit "c") 3 (1/2)).risk_level = RiskLevel.ELEVE ∧
    (mkRiskRecord (pyLit "e") exEntry (pyLit "a") 1 (9/10)).risk_level = RiskLevel.CRITIQUE ∧
    ¬ List.Sorted claimedGe (calculate_attack_surface exStateE exDcE).attack_surface := by
  with_unfolding_all decide

/-- C1 (amended): after a `calculate_attack_surface` call with at least one
entry point, the result list is sorted descending by the Python key
`(risk_level_string, -distance)` — i.e. grouped ÉLEVÉ, MOYEN, FAIBLE,
CRITIQUE (descending code-point order of the French labels), and within a
band smaller distances first. -/
theorem C1_sorted_by_string_key (st : AnalyzerState) (dc : List (Str × ℚ))
    (h : st.entry_points ≠ []) :
    List.Sorted recGe (calculate_attack_surface st dc).attack_surface := by
  rw [calculate_attack_surface_surface st dc h]
  exact List.sorted_insertionSort recGe _

/-- Witness for C1 on the example run. -/
theorem C1_witness :
    exStateE.entry_points ≠ [] ∧
    List.Sorted recGe (calculate_attack_surface exStateE exDcE).attack_surface :=
  ⟨by decide, C1_sorted_by_string_key exStateE exDcE (by decide)⟩

/-- C10: `calculate_attack_surface` appends to the analyzer's persistent
list: starting from a fresh analyzer, a second call with the same metrics
doubles the multiplicity of every risk record, and `get_summary` /
`get_top_risks` subsequently report the doubled list: total size, critical
path count and the full severity histogram all double, and `get_top_risks`
slices the doubled list. -/
theorem C10_second_call_duplicates (st : AnalyzerState) (dc : List (Str × ℚ))
    (hinit : st.attack_surface = []) :
    (∀ r : RiskRecord,
      (calculate_attack_surface (calculate_attack_surface st dc) dc).attack_surface.count r =
        2 * (calculate_attack_surface st dc).attack_surface.count r) ∧
    (get_summary (calculate_attack_surface (calculate_attack_surface st dc) dc)).total_attack_surface =
      2 * (get_summary (calculate_attack_surface st dc)).total_attack_surface ∧
    (get_summary (calculate_attack_surface (calculate_attack_surface st dc) dc)).critical_paths =
      2 * (get_summary (calculate_attack_surface st dc)).critical_paths ∧
    (∀ rl : RiskLevel,
      (get_summary (calculate_attack_surface (calculate_attack_surface st dc) dc)).by_risk rl =
        2 * (get_summary (calculate_attack_surface st dc)).by_risk rl) ∧
    (∀ n : Nat,
      (get_top_risks (calculate_attack_surface (calculate_attack_surface st dc) dc) n).length =
        min n (2 * (calculate_attack_surface st dc).attack_surface.length)) := by
  by_cases hep : st.entry_points = []
  · have h1 : calculate_attack_surface st dc = st := by
      rw [calculate_attack_surface, if_pos hep]
    rw [h1, h1]
    simp [hinit, get_summary, get_top_risks]
  · have hperm1 : (calculate_attack_surface st dc).attack_surface.Perm
        (st.entry_points.flatMap fun p =>
          p.2.flatMap fun e => recordsForEntry st.graph dc p.1 e) := by
      rw [calculate_attack_surface_surface st dc hep, hinit, List.nil_append]
      exact List.perm_insertionSort recGe _
    have hep2 : (calculate_attack_surface st dc).entry_points ≠ [] := by
      rw [(calculate_attack_surface_frame st dc).2]
      exact hep
    have hperm2 : (calculate_attack_surface (calculate_attack_surface st dc) dc).attack_surface.Perm
        ((calculate_attack_surface st dc).attack_surface ++
          st.entry_points.flatMap fun p =>
            p.2.flatMap fun e => recordsForEntry st.graph dc p.1 e) := by
      rw [calculate_attack_surface_surface _ dc hep2,
        (calculate_attack_surface_frame st dc).1, (calculate_attack_surface_frame st dc).2]
      exact List.perm_insertionSort recGe _
    refine ⟨?_, ?_, ?_, ?_, ?_⟩
    · intro r
      rw [hperm2.count_eq, List.count_append, hperm1.count_eq]
      omega
    · show (calculate_attack_surface (calculate_attack_surface st dc) dc).attack_surface.length =
        2 * (calculate_attack_surface st dc).attack_surface.length
      rw [hperm2.length_eq, List.length_append, hperm1.length_eq]
      omega
    · show ((calculate_attack_surface (calculate_attack_surface st dc) dc).attack_surface.filter _).length =
        2 * ((calculate_attack_surface st dc).attack_surface.filter _).length
      rw [← List.countP_eq_length_filter, ← List.countP_eq_length_filter,
        hperm2.countP_eq, List.countP_append, hperm1.countP_eq]
      omega
    · intro rl
      show (calculate_attack_surface (calculate_attack_surface st dc) dc).attack_surface.countP _ =
        2 * (calculate_attack_surface st dc).attack_surface.countP _
      rw [hperm2.countP_eq, List.countP_append, hperm1.countP_eq]
      omega
    · intro n
      show ((calculate_attack_surface (calculate_attack_surface st dc) dc).attack_surface.take n).length = _
      rw [List.length_take, hperm2.length_eq, List.length_append, hperm1.length_eq]
      omega

/-- Witness for C10 on the example run: the CRITIQUE record appears twice
after the second call, and the summary size doubles. -/
theorem C10_witness :
    exStateE.attack_surface = [] ∧
    (calculate_attack_surface (calculate_attack_surface exStateE exDcE) exDcE).attack_surface.count
        (mkRiskRecord (pyLit "e") exEntry (pyLit "a") 1 (9/10)) =
      2 * (calculate_attack_surface exStateE exDcE).attack_surface.count
        (mkRiskRecord (pyLit "e") exEntry (pyLit "a") 1 (9/10)) ∧
    (get_summary (calculate_attack_surface (calculate_attack_surface exStateE exDcE) exDcE)).total_attack_surface =
      2 * (get_summary (calculate_attack_surface exStateE exDcE)).total_attack_surface := by
  have h := C10_second_call_duplicates exStateE exDcE (by decide)
  exact ⟨by decide, h.1 _, h.2.1⟩

end CodeAnalyser
